import Mathlib

/-!
# Verification of the keyword-popularity aggregation engine (`src/app.py`)

Shallow embedding of the two core functions of the application:

* `get_all_suggestions` / `get_youtube_suggestions` — the autocomplete
  crawler that expands a seed keyword across an alphabet of single-character
  suffix queries and accumulates the suggestions returned by the endpoint;
* `get_google_trends_data` — the batched trend scorer that splits the
  keyword list into batches of 5, builds one query payload per batch and
  converts each batch response (a time-series frame, an empty frame, or a
  raised exception) into one scored row per keyword.

The network is modelled as an explicit environment: the crawler receives an
oracle mapping each issued query string to the autocomplete endpoint's
behaviour on it, and the scorer receives a list of per-batch responses
(a missing entry behaves like a raised exception, the catch-all branch of
the source).  Streamlit progress / warning calls and `time.sleep` pacing are
side effects with no influence on the returned data and are not modelled.
-/

namespace App

/-- Behaviour of one autocomplete HTTP lookup, as seen by
`get_youtube_suggestions`: either the request/JSON-decoding raises
(`err`, the `except` branch of the source) or it yields a decoded JSON
array `data`; the source reads `data[1]` (the list of suggested phrases)
after checking `data and len(data) > 1`, so the payload is modelled by the
list of its list-shaped fields, index 1 being the suggestion list. -/
inductive AutoResp where
  | err : AutoResp
  | data : List (List String) → AutoResp
deriving DecidableEq

/-- `get_youtube_suggestions` (src/app.py lines 19-37) applied to the
response of its single HTTP lookup: `suggestions` stays `[]` on an
exception; otherwise, if `data` is truthy and `len(data) > 1`, the call
returns `data[1]`, else the initial empty list. -/
def get_youtube_suggestions : AutoResp → List String
  | AutoResp.err => []
  | AutoResp.data d => if 1 < d.length then d.getD 1 [] else []

/-- The query string built by `get_youtube_suggestions` from the keyword
and the expansion character `p`: `f"{keyword} {p}"` when `p` is truthy
(non-empty), the bare keyword otherwise. -/
def queryOf (keyword p : String) : String :=
  if p ≠ "" then keyword ++ " " ++ p else keyword

/-- `prefixes = list(string.ascii_lowercase) + list(string.digits)`
(src/app.py line 47): the 36 single-character expansion strings, in sweep
order. -/
def prefixes : List String :=
  "abcdefghijklmnopqrstuvwxyz0123456789".toList.map (fun c => String.mk [c])

/-- One step of the accumulation loop of `get_all_suggestions`:
`if suggestion not in all_suggestions: all_suggestions.append(suggestion)`
— exact (case-sensitive) membership, first occurrence kept in place. -/
def insertNew (acc : List String) (s : String) : List String :=
  if s ∈ acc then acc else acc ++ [s]

/-- Appending every suggestion of one lookup's result list through
`insertNew`, in order. -/
def addAll (acc : List String) (l : List String) : List String :=
  l.foldl insertNew acc

/-- `get_all_suggestions` (src/app.py lines 40-73): one base lookup for the
bare keyword, then one lookup per expansion character, all suggestions
accumulated through the exact-membership `insertNew` loop.  `oracle` maps
each issued query string to the endpoint's behaviour on it. -/
def get_all_suggestions (keyword : String) (oracle : String → AutoResp) : List String :=
  prefixes.foldl
    (fun acc p => addAll acc (get_youtube_suggestions (oracle (queryOf keyword p))))
    (addAll [] (get_youtube_suggestions (oracle (queryOf keyword ""))))

/-- The query strings issued by one run of `get_all_suggestions`: the bare
keyword first, then `keyword ++ " " ++ c` for each of the 36 expansion
characters.  The source issues exactly these lookups, unconditionally. -/
def crawlQueries (keyword : String) : List String :=
  queryOf keyword "" :: prefixes.map (queryOf keyword)

/-- One column of the frame returned by `pytrends.interest_over_time()` for
one keyword: the interest value (an exact rational standing for the numeric
value, bounded 0-100 by the API) and the row's `isPartial` flag.  In pandas
the flag is a per-row column shared by all keywords; storing it per cell is
a strict generalisation (the source never reads it). -/
abbrev TrendsColumn := List (ℚ × Bool)

/-- The keyword columns of the frame returned by
`pytrends.interest_over_time()`: an association list keyword → column. -/
abbrev TrendsFrame := List (String × TrendsColumn)

/-- `data.empty` for the modelled frame: true when the frame has no
columns or no rows (pandas: some axis has length 0). -/
def TrendsFrame.isEmptyFrame (f : TrendsFrame) : Bool :=
  f.isEmpty || f.all (fun c => c.2.isEmpty)

/-- Behaviour of one batch call (`build_payload` + `interest_over_time`):
either some exception is raised (`fail`, the `except` branch — covers
throttling, transport and parse errors alike) or a frame is returned. -/
inductive BatchResult where
  | fail : BatchResult
  | frame : TrendsFrame → BatchResult
deriving DecidableEq

/-- One output row of `get_google_trends_data`:
`{'Keyword': …, 'Google Trends Index': …}`. -/
structure Row where
  keyword : String
  score : ℚ
deriving DecidableEq

/-- The immutable request descriptor built by
`pytrends.build_payload(batch, cat=0, timeframe=timeframe, geo=geo,
gprop='youtube')` for one batch (src/app.py line 87). -/
structure QueryPayload where
  batch : List String
  cat : ℕ
  timeframe : String
  geo : String
  gprop : String
deriving DecidableEq

/-- `data[keyword].mean()`: the arithmetic mean of every value of the
column, the trailing partial row included (the source never excludes
`isPartial` rows). -/
def columnMean (col : TrendsColumn) : ℚ :=
  (col.map Prod.fst).sum / col.length

/-- Round half to even at integer precision, on exact rationals. -/
def roundHalfEven (q : ℚ) : ℤ :=
  if q - ⌊q⌋ < 1 / 2 then ⌊q⌋
  else if 1 / 2 < q - ⌊q⌋ then ⌊q⌋ + 1
  else if 2 ∣ ⌊q⌋ then ⌊q⌋ else ⌊q⌋ + 1

/-- Python's `round(x, 2)`, modelled as exact rounding of the rational to
2 decimal places (half to even, Python's documented tie rule). -/
def round2 (q : ℚ) : ℚ :=
  (roundHalfEven (100 * q) : ℚ) / 100

/-- The row appended for one keyword of one batch, as a function of the
batch's outcome (the per-keyword body of the loop, src/app.py lines
91-126): on an exception the keyword scores 0; on an empty frame the
keyword scores 0; otherwise a keyword present among the columns scores
`round(data[keyword].mean(), 2)` and an absent keyword scores 0. -/
def scoreRow (r : BatchResult) (k : String) : Row :=
  match r with
  | BatchResult.fail => ⟨k, 0⟩
  | BatchResult.frame f =>
      if f.isEmptyFrame then ⟨k, 0⟩
      else
        match f.lookup k with
        | some col => ⟨k, round2 (columnMean col)⟩
        | none => ⟨k, 0⟩

/-- The rows appended for one whole batch: one row per keyword of the
batch, in batch order. -/
def processBatch (b : List String) (r : BatchResult) : List Row :=
  b.map (scoreRow r)

/-- `keywords[i:i+5]` for `i in range(0, total_keywords, 5)`: the batch
split of the keyword list (src/app.py lines 84-85). -/
def chunks5 : List String → List (List String)
  | [] => []
  | [a] => [[a]]
  | [a, b] => [[a, b]]
  | [a, b, c] => [[a, b, c]]
  | [a, b, c, d] => [[a, b, c, d]]
  | a :: b :: c :: d :: e :: rest => [a, b, c, d, e] :: chunks5 rest

/-- The sequence of request descriptors built by one run of
`get_google_trends_data`: one `build_payload` call per batch, with
`cat=0`, the caller's `timeframe` and `geo` verbatim, and
`gprop='youtube'`. -/
def payloads (kws : List String) (tf geo : String) : List QueryPayload :=
  (chunks5 kws).map (fun b => ⟨b, 0, tf, geo, "youtube"⟩)

/-- The batch loop: payload `j` is answered by `resp[j]`, a missing entry
behaving like a raised exception (the `except` branch zero-fills). -/
def runBatches : List QueryPayload → List BatchResult → List Row
  | [], _ => []
  | p :: ps, rs => processBatch p.batch (rs.headD BatchResult.fail) ++ runBatches ps rs.tail

/-- `get_google_trends_data` (src/app.py lines 76-129): batch the keyword
list, build one payload per batch, and accumulate one scored row per
keyword of every batch, in input order.  `resp` is the environment: the
outcome of each batch's trends call. -/
def get_google_trends_data (kws : List String) (tf geo : String)
    (resp : List BatchResult) : List Row :=
  runBatches (payloads kws tf geo) resp

/-- Modelled from the spec: the "lower-cased form" of a phrase, the key the
spec says deduplication and filtering are performed on.  Stated on
character lists so it is kernel-evaluable. -/
def lowerKey (s : String) : List Char :=
  s.toList.map Char.toLower

/-- Modelled from the spec: the post-filter predicate the spec ascribes to
the crawler — "retain only phrases whose lowercase form starts with the
lowercase seed term".  It is compared against the behaviour of
`get_all_suggestions`. -/
def lowerStartsWithSeed (seed s : String) : Bool :=
  (lowerKey seed).isPrefixOf (lowerKey s)

/-- Modelled from the spec: the aggregation the spec ascribes to the
scorer — "the InterestScore is the mean of its non-partial values" — the
rows flagged partial being excluded before averaging.  Compared against
`columnMean`, the aggregation the source actually performs. -/
def specNonPartialMean (col : TrendsColumn) : ℚ :=
  let keptVals := (col.filter (fun v => !v.2)).map Prod.fst
  keptVals.sum / keptVals.length

/-- `time_period_options` (src/app.py lines 137-143): the preset menu
mapping shown by the sidebar to the timeframe token actually sent. -/
def time_period_options : List (String × String) :=
  [("Past 7 days", "now 7-d"), ("Past 30 days", "today 1-m"),
   ("Past 90 days", "today 3-m"), ("Past 12 months", "today 12-m"),
   ("Past 5 years", "today 5-y")]

/-! ## Crawler lemmas -/

theorem mem_insertNew {acc : List String} {x s : String} :
    s ∈ insertNew acc x ↔ s ∈ acc ∨ s = x := by
  by_cases h : x ∈ acc
  · rw [insertNew, if_pos h]
    constructor
    · exact Or.inl
    · rintro (hs | rfl)
      · exact hs
      · exact h
  · rw [insertNew, if_neg h]
    simp

theorem mem_addAll {l acc : List String} {s : String} :
    s ∈ addAll acc l ↔ s ∈ acc ∨ s ∈ l := by
  induction l generalizing acc with
  | nil => simp [addAll]
  | cons x xs ih =>
      show s ∈ addAll (insertNew acc x) xs ↔ _
      rw [ih, mem_insertNew]
      simp [or_assoc]

theorem nodup_insertNew {acc : List String} {x : String} (h : acc.Nodup) :
    (insertNew acc x).Nodup := by
  by_cases hx : x ∈ acc
  · rwa [insertNew, if_pos hx]
  · rw [insertNew, if_neg hx]
    rw [List.nodup_append]
    exact ⟨h, List.nodup_singleton x,
      fun a ha hax => hx ((List.mem_singleton.mp hax) ▸ ha)⟩

theorem nodup_addAll {l acc : List String} (h : acc.Nodup) : (addAll acc l).Nodup := by
  induction l generalizing acc with
  | nil => exact h
  | cons x xs ih => exact ih (nodup_insertNew h)

theorem mem_foldl_addAll {l : List String} {g : String → List String}
    {init : List String} {s : String} :
    s ∈ l.foldl (fun acc p => addAll acc (g p)) init
      ↔ s ∈ init ∨ ∃ p ∈ l, s ∈ g p := by
  induction l generalizing init with
  | nil => simp
  | cons x xs ih =>
      rw [List.foldl_cons, ih, mem_addAll]
      simp [or_assoc]

theorem nodup_foldl_addAll {l : List String} {g : String → List String}
    {init : List String} (h : init.Nodup) :
    (l.foldl (fun acc p => addAll acc (g p)) init).Nodup := by
  induction l generalizing init with
  | nil => exact h
  | cons x xs ih => exact ih (nodup_addAll h)

theorem mem_crawlQueries_base (keyword : String) :
    queryOf keyword "" ∈ crawlQueries keyword :=
  List.mem_cons_self _ _

theorem mem_crawlQueries_of_mem (keyword : String) {p : String} (hp : p ∈ prefixes) :
    queryOf keyword p ∈ crawlQueries keyword :=
  List.mem_cons_of_mem _ (List.mem_map_of_mem _ hp)

/-- The crawl consults the endpoint exactly on the queries of
`crawlQueries`: two environments whose lookups coincide there produce the
same result. -/
theorem crawl_congr_gys {keyword : String} {o1 o2 : String → AutoResp}
    (h : ∀ q ∈ crawlQueries keyword,
      get_youtube_suggestions (o1 q) = get_youtube_suggestions (o2 q)) :
    get_all_suggestions keyword o1 = get_all_suggestions keyword o2 := by
  unfold get_all_suggestions
  rw [h _ (mem_crawlQueries_base keyword)]
  exact List.foldl_ext _ _ _
    (fun acc p hp => by rw [h _ (mem_crawlQueries_of_mem keyword hp)])

/-! ## Scorer lemmas -/

theorem scoreRow_keyword (r : BatchResult) (k : String) : (scoreRow r k).keyword = k := by
  cases r with
  | fail => rfl
  | frame f =>
      rw [scoreRow]
      by_cases h : f.isEmptyFrame
      · rw [if_pos h]
      · rw [if_neg h]
        cases f.lookup k <;> rfl

theorem scoreRow_fail_eq_emptyFrame :
    scoreRow BatchResult.fail = scoreRow (BatchResult.frame []) :=
  funext fun _ => rfl

theorem headD_eq_getD_zero {α : Type} (l : List α) (d : α) : l.headD d = l.getD 0 d := by
  cases l <;> rfl

theorem tail_getD {α : Type} (l : List α) (n : ℕ) (d : α) :
    l.tail.getD n d = l.getD (n + 1) d := by
  cases l <;> simp [List.getD]

theorem chunks5_cons :
    ∀ (kws : List String), kws ≠ [] →
      chunks5 kws = kws.take 5 :: chunks5 (kws.drop 5)
  | [], h => absurd rfl h
  | [_], _ => rfl
  | [_, _], _ => rfl
  | [_, _, _], _ => rfl
  | [_, _, _, _], _ => rfl
  | _ :: _ :: _ :: _ :: _ :: _, _ => rfl

theorem gtd_nil (tf geo : String) (resp : List BatchResult) :
    get_google_trends_data [] tf geo resp = [] := rfl

theorem gtd_cons (kws : List String) (h : kws ≠ []) (tf geo : String)
    (resp : List BatchResult) :
    get_google_trends_data kws tf geo resp
      = processBatch (kws.take 5) (resp.headD BatchResult.fail)
        ++ get_google_trends_data (kws.drop 5) tf geo resp.tail := by
  unfold get_google_trends_data payloads
  rw [chunks5_cons kws h, List.map_cons, runBatches]

theorem gtd_getElem_aux :
    ∀ (n : ℕ) (kws : List String), kws.length ≤ n →
      ∀ (tf geo : String) (resp : List BatchResult) (i : ℕ),
        (get_google_trends_data kws tf geo resp)[i]?
          = if i < kws.length
            then some (scoreRow (resp.getD (i / 5) BatchResult.fail) (kws.getD i ""))
            else none := by
  intro n
  induction n with
  | zero =>
      intro kws hk tf geo resp i
      rw [List.length_eq_zero.mp (Nat.le_zero.mp hk)]
      simp [gtd_nil]
  | succ n ih =>
      intro kws hk tf geo resp i
      cases kws with
      | nil => simp [gtd_nil]
      | cons k ks =>
          rw [gtd_cons (k :: ks) (by simp) tf geo resp, List.getElem?_append]
          have hlenA : (processBatch ((k :: ks).take 5) (resp.headD BatchResult.fail)).length
              = min 5 (k :: ks).length := by
            simp only [processBatch, List.length_map, List.length_take]
          by_cases hiA : i < min 5 (k :: ks).length
          · rw [if_pos (hlenA ▸ hiA)]
            have hi5 : i < 5 := lt_of_lt_of_le hiA (min_le_left _ _)
            have hilen : i < (k :: ks).length := lt_of_lt_of_le hiA (min_le_right _ _)
            rw [processBatch, List.getElem?_map, List.getElem?_take, if_pos hi5,
              List.getElem?_eq_getElem hilen, if_pos hilen, Option.map_some']
            rw [Nat.div_eq_of_lt hi5, ← headD_eq_getD_zero,
              List.getD_eq_getElem?_getD, List.getElem?_eq_getElem hilen, Option.getD_some]
          · rw [if_neg (by rw [hlenA]; exact hiA)]
            rw [hlenA]
            by_cases hshort : (k :: ks).length ≤ 5
            · have hmin : min 5 (k :: ks).length = (k :: ks).length :=
                min_eq_right hshort
              have hdrop : (k :: ks).drop 5 = [] := by
                rw [List.drop_eq_nil_iff]
                exact hshort
              rw [hdrop, gtd_nil]
              rw [if_neg (by rw [hmin] at hiA; omega)]
              simp
            · have hlong : 5 < (k :: ks).length := lt_of_not_le hshort
              have hmin : min 5 (k :: ks).length = 5 := min_eq_left (le_of_lt hlong)
              rw [hmin]
              have hi5 : 5 ≤ i := by rw [hmin] at hiA; omega
              have hlen' : ((k :: ks).drop 5).length ≤ n := by
                rw [List.length_drop]
                have hk' : (k :: ks).length ≤ n + 1 := hk
                omega
              rw [ih _ hlen' tf geo resp.tail (i - 5)]
              have hlt : (i - 5 < ((k :: ks).drop 5).length) ↔ (i < (k :: ks).length) := by
                rw [List.length_drop]
                omega
              by_cases hin : i < (k :: ks).length
              · rw [if_pos (hlt.mpr hin), if_pos hin]
                have hdg : ((k :: ks).drop 5).getD (i - 5) "" = (k :: ks).getD i "" := by
                  rw [List.getD_eq_getElem?_getD, List.getD_eq_getElem?_getD,
                    List.getElem?_drop]
                  have h5 : 5 + (i - 5) = i := by omega
                  rw [h5]
                have hrg : resp.tail.getD ((i - 5) / 5) BatchResult.fail
                    = resp.getD (i / 5) BatchResult.fail := by
                  rw [tail_getD]
                  congr 1
                  have h5 : i = (i - 5) + 5 := by omega
                  conv_rhs => rw [h5]
                  rw [Nat.add_div_right _ (by norm_num)]
                rw [hdg, hrg]
              · rw [if_neg (fun hcon => hin (hlt.mp hcon)), if_neg hin]

theorem gtd_getElem (kws : List String) (tf geo : String) (resp : List BatchResult)
    (i : ℕ) :
    (get_google_trends_data kws tf geo resp)[i]?
      = if i < kws.length
        then some (scoreRow (resp.getD (i / 5) BatchResult.fail) (kws.getD i ""))
        else none :=
  gtd_getElem_aux kws.length kws le_rfl tf geo resp i

theorem processBatch_keywords (b : List String) (r : BatchResult) :
    (processBatch b r).map Row.keyword = b := by
  induction b with
  | nil => rfl
  | cons x xs ih =>
      show (scoreRow r x).keyword :: (processBatch xs r).map Row.keyword = x :: xs
      rw [scoreRow_keyword, ih]

theorem gtd_keys_aux :
    ∀ (n : ℕ) (kws : List String), kws.length ≤ n →
      ∀ (tf geo : String) (resp : List BatchResult),
        (get_google_trends_data kws tf geo resp).map Row.keyword = kws := by
  intro n
  induction n with
  | zero =>
      intro kws hk tf geo resp
      rw [List.length_eq_zero.mp (Nat.le_zero.mp hk)]
      rfl
  | succ n ih =>
      intro kws hk tf geo resp
      cases kws with
      | nil => rfl
      | cons k ks =>
          rw [gtd_cons (k :: ks) (by simp) tf geo resp, List.map_append,
            processBatch_keywords]
          rw [ih ((k :: ks).drop 5) (by simp at hk ⊢; omega) tf geo resp.tail]
          exact List.take_append_drop 5 (k :: ks)

theorem gtd_keys (kws : List String) (tf geo : String) (resp : List BatchResult) :
    (get_google_trends_data kws tf geo resp).map Row.keyword = kws :=
  gtd_keys_aux kws.length kws le_rfl tf geo resp

theorem gtd_length (kws : List String) (tf geo : String) (resp : List BatchResult) :
    (get_google_trends_data kws tf geo resp).length = kws.length := by
  have h := congrArg List.length (gtd_keys kws tf geo resp)
  simpa using h

theorem chunks5_sizes :
    ∀ (n : ℕ) (kws : List String), kws.length ≤ n →
      ∀ b ∈ chunks5 kws, b.length ≤ 5 := by
  intro n
  induction n with
  | zero =>
      intro kws hk
      rw [List.length_eq_zero.mp (Nat.le_zero.mp hk)]
      simp [chunks5]
  | succ n ih =>
      intro kws hk b hb
      cases kws with
      | nil => simp [chunks5] at hb
      | cons k ks =>
          rw [chunks5_cons (k :: ks) (by simp)] at hb
          cases hb with
          | head => simp
          | tail _ hb' =>
              exact ih ((k :: ks).drop 5) (by simp at hk ⊢; omega) b hb'

theorem chunks5_join :
    ∀ (n : ℕ) (kws : List String), kws.length ≤ n → (chunks5 kws).flatten = kws := by
  intro n
  induction n with
  | zero =>
      intro kws hk
      rw [List.length_eq_zero.mp (Nat.le_zero.mp hk)]
      rfl
  | succ n ih =>
      intro kws hk
      cases kws with
      | nil => rfl
      | cons k ks =>
          rw [chunks5_cons (k :: ks) (by simp), List.flatten_cons]
          rw [ih ((k :: ks).drop 5) (by simp at hk ⊢; omega)]
          exact List.take_append_drop 5 (k :: ks)

/-! ## Claim theorems -/

/-- C1: for every input keyword list, the table returned by
`get_google_trends_data` has exactly one row per input keyword —
its key set (and even the multiset of its `Keyword` entries) equals the
input keyword list's — regardless of how many batches fail, are throttled
(both are the `fail` outcome) or return an empty series. -/
theorem c1_output_keys_match_input (kws : List String) (tf geo : String)
    (resp : List BatchResult) :
    ((get_google_trends_data kws tf geo resp).map Row.keyword).toFinset = kws.toFinset
    ∧ ∀ k : String,
        ((get_google_trends_data kws tf geo resp).map Row.keyword).count k = kws.count k := by
  rw [gtd_keys]
  exact ⟨rfl, fun _ => rfl⟩

/-- C10: for every duplicate-free input keyword list, the rows of the table
returned by `get_google_trends_data` appear in exactly the input order: the
row at position `i` holds the keyword at position `i` of the input, whatever
the batch responses were (success, empty frame or exception). -/
theorem c10_rows_in_input_order (kws : List String) (tf geo : String)
    (resp : List BatchResult) (i : ℕ)
    (hnd : kws.Nodup) (hi : i < kws.length) :
    ((get_google_trends_data kws tf geo resp).getD i ⟨"", 0⟩).keyword
      = kws.getD i "" := by
  rw [List.getD_eq_getElem?_getD, gtd_getElem, if_pos hi, Option.getD_some,
    scoreRow_keyword]

/-- Witness for C10 at a concrete input: two keywords, every batch failing
(empty response list), the row at position 1 still holds the keyword at
position 1. -/
theorem c10_rows_in_input_order_witness :
    ((get_google_trends_data ["a", "b"] "now 7-d" "" []).getD 1 ⟨"", 0⟩).keyword
      = ["a", "b"].getD 1 "" :=
  c10_rows_in_input_order ["a", "b"] "now 7-d" "" [] 1 (by decide) (by decide)

/-- C6: every payload built by `get_google_trends_data` carries a batch of
at most 5 keywords, and the batches concatenate back to exactly the input
list (they partition it, in order). -/
theorem c6_batches_partition (kws : List String) (tf geo : String) :
    (∀ p ∈ payloads kws tf geo, p.batch.length ≤ 5)
    ∧ ((payloads kws tf geo).map QueryPayload.batch).flatten = kws := by
  constructor
  · intro p hp
    obtain ⟨b, hb, rfl⟩ := List.mem_map.mp hp
    exact chunks5_sizes kws.length kws le_rfl b hb
  · rw [payloads, List.map_map]
    rw [show (QueryPayload.batch ∘ fun b => (⟨b, 0, tf, geo, "youtube"⟩ : QueryPayload))
        = fun b => b from funext fun _ => rfl]
    rw [List.map_id']
    exact chunks5_join kws.length kws le_rfl

/-- Witness for C6 at a concrete input: 6 keywords split into a payload of
5 and a payload of 1. -/
theorem c6_batches_partition_witness :
    (⟨["a", "b", "c", "d", "e"], 0, "now 7-d", "", "youtube"⟩ : QueryPayload).batch.length ≤ 5
    ∧ ((payloads ["a", "b", "c", "d", "e", "f"] "now 7-d" "").map QueryPayload.batch).flatten
        = ["a", "b", "c", "d", "e", "f"] :=
  ⟨(c6_batches_partition ["a", "b", "c", "d", "e", "f"] "now 7-d" "").1 _
      (by simp [payloads, chunks5]),
    (c6_batches_partition ["a", "b", "c", "d", "e", "f"] "now 7-d" "").2⟩

/-- C3 counterexample: no timeframe normalization exists in the code.  A
caller passing the legacy token `"today 7-d"` sees exactly that token in
the built payload — it is not rewritten to `"now 7-d"`. -/
theorem c3_counterexample_timeframe_passthrough :
    (payloads ["music"] "today 7-d" "").map QueryPayload.timeframe = ["today 7-d"]
    ∧ "today 7-d" ≠ "now 7-d" := by
  constructor
  · rfl
  · decide

/-- C3 (amended): `get_google_trends_data` performs no rewriting at all —
every payload it builds carries the caller's timeframe token verbatim
(hence a custom `"YYYY-MM-DD YYYY-MM-DD"` range passes through unchanged,
but so would a legacy `"today 7-d"`).  The legacy form is avoided upstream
instead: the sidebar preset table maps "Past 7 days" directly to
`"now 7-d"`. -/
theorem c3_amended_verbatim_timeframe (kws : List String) (tf geo : String)
    (p : QueryPayload) (hp : p ∈ payloads kws tf geo) :
    p.timeframe = tf
    ∧ time_period_options.lookup "Past 7 days" = some "now 7-d" := by
  constructor
  · obtain ⟨b, hb, rfl⟩ := List.mem_map.mp hp
    rfl
  · rfl

/-- Witness for C3 (amended) at a concrete input: the single payload built
for one keyword with a custom range token carries that token. -/
theorem c3_amended_verbatim_timeframe_witness :
    (⟨["music"], 0, "2025-01-01 2025-05-01", "", "youtube"⟩ : QueryPayload).timeframe
        = "2025-01-01 2025-05-01"
    ∧ time_period_options.lookup "Past 7 days" = some "now 7-d" :=
  c3_amended_verbatim_timeframe ["music"] "2025-01-01 2025-05-01" "" _
    (by simp [payloads, chunks5])

/-- C2 counterexample: `get_all_suggestions` applies no post-filter.  With
seed `"music"`, an endpoint answering the bare-seed query with the phrase
`"amazing music"` (and failing every suffix query) makes the crawl return
exactly `["amazing music"]`, whose lowercase form does not start with the
lowercase seed. -/
theorem c2_counterexample_unfiltered_phrase :
    get_all_suggestions "music"
        (fun q => if q = "music" then AutoResp.data [[], ["amazing music"]] else AutoResp.err)
      = ["amazing music"]
    ∧ lowerStartsWithSeed "music" "amazing music" = false := by
  constructor
  · decide
  · decide

/-- C2 (amended): the crawl keeps every phrase the endpoint returns and
nothing else — a phrase is in the result iff some issued query's lookup
yielded it; no filtering by the seed term is performed, so entries need not
start with the seed. -/
theorem c2_amended_no_seed_filter (keyword : String) (oracle : String → AutoResp)
    (s : String) :
    s ∈ get_all_suggestions keyword oracle
      ↔ ∃ q ∈ crawlQueries keyword, s ∈ get_youtube_suggestions (oracle q) := by
  unfold get_all_suggestions
  rw [mem_foldl_addAll, mem_addAll]
  unfold crawlQueries
  simp only [List.not_mem_nil, false_or, List.mem_cons, List.mem_map]
  constructor
  · rintro (hbase | ⟨p, hp, hs⟩)
    · exact ⟨queryOf keyword "", Or.inl rfl, hbase⟩
    · exact ⟨queryOf keyword p, Or.inr ⟨p, hp, rfl⟩, hs⟩
  · rintro ⟨q, hq | ⟨p, hp, rfl⟩, hs⟩
    · exact Or.inl (hq ▸ hs)
    · exact Or.inr ⟨p, hp, hs⟩

/-- C8 counterexample: deduplication is case-sensitive.  An endpoint
returning `["Rock", "rock"]` for the bare seed makes the crawl keep both
phrases, although they are equal after lowercasing and differ as strings. -/
theorem c8_counterexample_case_sensitive_dedup :
    get_all_suggestions "music"
        (fun q => if q = "music" then AutoResp.data [[], ["Rock", "rock"]] else AutoResp.err)
      = ["Rock", "rock"]
    ∧ lowerKey "Rock" = lowerKey "rock"
    ∧ "Rock" ≠ "rock" := by
  refine ⟨by decide, by decide, by decide⟩

/-- C8 (amended): deduplication is by exact string equality — the crawl's
result never contains the same string twice (first occurrence kept), but
phrases equal only after lowercasing are all retained. -/
theorem c8_amended_exact_dedup (keyword : String) (oracle : String → AutoResp) :
    (get_all_suggestions keyword oracle).Nodup :=
  nodup_foldl_addAll (nodup_addAll List.nodup_nil)

set_option maxRecDepth 4000 in
/-- C9 counterexample: an empty seed keyword is not rejected — the crawl
still issues its 37 autocomplete queries (the count is nonzero) and still
consumes the endpoint's responses, here returning the suggestion `"x"`. -/
theorem c9_counterexample_empty_seed_not_rejected :
    (crawlQueries "").length = 37
    ∧ (37 : ℕ) ≠ 0
    ∧ get_all_suggestions "" (fun _ => AutoResp.data [[], ["x"]]) = ["x"] := by
  refine ⟨by simp [crawlQueries, prefixes], by decide, by decide⟩

/-- C9 (amended): no input validation exists.  For every seed — the empty
string included — the crawl issues the same 37 autocomplete lookups, and
its result depends on the endpoint's behaviour at exactly those queries. -/
theorem c9_amended_no_validation (keyword : String) (o1 o2 : String → AutoResp)
    (h : ∀ q ∈ crawlQueries keyword, o1 q = o2 q) :
    get_all_suggestions keyword o1 = get_all_suggestions keyword o2
    ∧ (crawlQueries keyword).length = 37 := by
  refine ⟨crawl_congr_gys (fun q hq => by rw [h q hq]), ?_⟩
  simp [crawlQueries, prefixes]

/-- Witness for C9 (amended) at a concrete input: the empty seed, with two
oracles that agree everywhere. -/
theorem c9_amended_no_validation_witness :
    get_all_suggestions "" (fun _ => AutoResp.err) = get_all_suggestions "" (fun _ => AutoResp.err)
    ∧ (crawlQueries "").length = 37 :=
  c9_amended_no_validation "" (fun _ => AutoResp.err) (fun _ => AutoResp.err)
    (fun _ _ => rfl)

/-- C4 counterexample: the aggregation includes the trailing partial point
and rounds.  One keyword whose series is value 1 (non-partial), 0
(non-partial), 1 (partial): the spec's non-partial mean is 1/2, but the
returned score is `round((1+0+1)/3, 2) = 0.67`. -/
theorem c4_counterexample_partial_included :
    ((get_google_trends_data ["k"] "now 7-d" ""
        [BatchResult.frame [("k", [(1, false), (0, false), (1, true)])]]).getD 0
        ⟨"", 0⟩).score
      = 67 / 100
    ∧ specNonPartialMean [(1, false), (0, false), (1, true)] = 1 / 2
    ∧ (67 / 100 : ℚ) ≠ 1 / 2 := by
  refine ⟨?_, ?_, by norm_num⟩
  · simp only [get_google_trends_data, payloads, chunks5, List.map_cons, List.map_nil,
      runBatches, processBatch, scoreRow, TrendsFrame.isEmptyFrame, List.lookup,
      List.headD, List.tail, List.getD_cons_zero, List.append_nil]
    norm_num [columnMean, round2, roundHalfEven]
  · norm_num [specNonPartialMean]

/-- C4 (amended): for a keyword whose batch returned a non-empty series,
the score is the mean of **all** of its values — the trailing partial point
included — rounded to 2 decimal places; a requested keyword absent from the
returned columns scores 0. -/
theorem c4_amended_mean_all_rounded (kws : List String) (tf geo : String)
    (resp : List BatchResult) (i : ℕ) (f : TrendsFrame)
    (hi : i < kws.length)
    (hr : resp.getD (i / 5) BatchResult.fail = BatchResult.frame f)
    (hne : f.isEmptyFrame = false) :
    ((get_google_trends_data kws tf geo resp).getD i ⟨"", 0⟩).score
      = match f.lookup (kws.getD i "") with
        | some col => round2 (columnMean col)
        | none => 0 := by
  rw [List.getD_eq_getElem?_getD, gtd_getElem, if_pos hi, Option.getD_some, hr]
  simp only [scoreRow]
  rw [if_neg (by simp [hne])]
  cases hl : f.lookup (kws.getD i "") <;> rfl

/-- Witness for C4 (amended) at a concrete input: one keyword, one batch,
series value 4 (non-partial) and 6 (partial) — the score is the rounded
mean of both values. -/
theorem c4_amended_mean_all_rounded_witness :
    ((get_google_trends_data ["k"] "now 7-d" ""
        [BatchResult.frame [("k", [(4, false), (6, true)])]]).getD 0 ⟨"", 0⟩).score
      = match ([("k", [((4 : ℚ), false), (6, true)])] : TrendsFrame).lookup
          (["k"].getD 0 "") with
        | some col => round2 (columnMean col)
        | none => 0 :=
  c4_amended_mean_all_rounded ["k"] "now 7-d" ""
    [BatchResult.frame [("k", [(4, false), (6, true)])]] 0
    [("k", [(4, false), (6, true)])] (by decide) rfl (by decide)

theorem getD_set_eq {α : Type} (l : List α) (j : ℕ) (a d : α) (hj : j < l.length) :
    (l.set j a).getD j d = a := by
  rw [List.getD_eq_getElem?_getD, List.getElem?_set_eq_of_lt a hj, Option.getD_some]

theorem getD_set_ne {α : Type} (l : List α) (j m : ℕ) (a d : α) (hm : j ≠ m) :
    (l.set j a).getD m d = l.getD m d := by
  rw [List.getD_eq_getElem?_getD, List.getElem?_set_ne hm, ← List.getD_eq_getElem?_getD]

/-- Two response environments whose per-batch rows coincide produce the
same table. -/
theorem gtd_congr_scoreRow {kws : List String} {tf geo : String}
    {r1 r2 : List BatchResult}
    (h : ∀ m, scoreRow (r1.getD m BatchResult.fail) = scoreRow (r2.getD m BatchResult.fail)) :
    get_google_trends_data kws tf geo r1 = get_google_trends_data kws tf geo r2 := by
  apply List.ext_getElem?
  intro n
  rw [gtd_getElem, gtd_getElem]
  by_cases hn : n < kws.length
  · rw [if_pos hn, if_pos hn, h (n / 5)]
  · rw [if_neg hn, if_neg hn]

/-- C7: failures are contained.  (a) A crawl whose lookup at some query
fails returns exactly what it returns when that lookup yields an empty
result — the sweep is not aborted.  (b) A scoring run whose batch `j`
raises returns exactly what it returns when batch `j` yields an empty
series (that batch zero-filled).  (c) Replacing batch `j`'s response by a
failure leaves the rows of all earlier batches (the first `5*j` rows)
untouched. -/
theorem c7_failure_containment (keyword q : String) (oracle : String → AutoResp)
    (kws : List String) (tf geo : String) (resp : List BatchResult) (j : ℕ) :
    get_all_suggestions keyword (Function.update oracle q AutoResp.err)
      = get_all_suggestions keyword (Function.update oracle q (AutoResp.data []))
    ∧ get_google_trends_data kws tf geo (resp.set j BatchResult.fail)
      = get_google_trends_data kws tf geo (resp.set j (BatchResult.frame []))
    ∧ (get_google_trends_data kws tf geo (resp.set j BatchResult.fail)).take (5 * j)
      = (get_google_trends_data kws tf geo resp).take (5 * j) := by
  refine ⟨?_, ?_, ?_⟩
  · apply crawl_congr_gys
    intro q' _
    rw [Function.update_apply, Function.update_apply]
    by_cases hq : q' = q
    · rw [if_pos hq, if_pos hq]
      rfl
    · rw [if_neg hq, if_neg hq]
  · apply gtd_congr_scoreRow
    intro m
    by_cases hm : m = j
    · subst hm
      by_cases hj : m < resp.length
      · rw [getD_set_eq _ _ _ _ hj, getD_set_eq _ _ _ _ hj]
        exact scoreRow_fail_eq_emptyFrame
      · rw [List.set_eq_of_length_le (le_of_not_lt hj),
          List.set_eq_of_length_le (le_of_not_lt hj)]
    · rw [getD_set_ne _ _ _ _ _ (fun hc => hm hc.symm),
        getD_set_ne _ _ _ _ _ (fun hc => hm hc.symm)]
  · apply List.ext_getElem?
    intro n
    rw [List.getElem?_take, List.getElem?_take]
    by_cases hn : n < 5 * j
    · rw [if_pos hn, if_pos hn, gtd_getElem, gtd_getElem]
      by_cases hnk : n < kws.length
      · rw [if_pos hnk, if_pos hnk]
        have hdiv : j ≠ n / 5 := by
          have hlt : n / 5 < j := (Nat.div_lt_iff_lt_mul (by norm_num)).mpr (by omega)
          omega
        rw [getD_set_ne _ _ _ _ _ hdiv]
      · rw [if_neg hnk, if_neg hnk]
    · rw [if_neg hn, if_neg hn]

end App
